import Mathlib

/-!
Verification of the summaree_bot transcription/summarization pipeline.

Shallow embedding of the core pipeline of the `summaree_bot` repository:

* content-hash dedup of transcripts
  (`_check_existing_transcript` in `summaree_bot/bot/common.py`,
   `transcribe_file` in `summaree_bot/integrations/openai.py`),
* silence-based audio chunk planning
  (`split_audio`, `get_even_splits`, `get_sizes` in
   `summaree_bot/integrations/audio.py`),
* concurrent chunk transcription with majority-vote language detection
  (`get_whisper_transcription` in `summaree_bot/integrations/openai.py`),
* the structured-output summarizer with its JSON repair loop
  (`get_openai_chatcompletion`, `_summarize` in
   `summaree_bot/integrations/openai.py`),
* the per-topic translation cache
  (`_translate_topic` in `summaree_bot/integrations/deepl.py`,
   `TopicTranslation` in `summaree_bot/models/models.py`).

Database sessions are modelled as explicit list-valued stores; external
services (SHA-256, Whisper, the chat model, DeepL) are oracle function
parameters; SQLAlchemy's `one_or_none` / `scalar_one_or_none` is modelled
faithfully (it errors on more than one matching row).  Float arithmetic of
the chunk planner is modelled with exact rationals.
-/

namespace SummareeBot

/-- Errors surfaced by the embedded pipeline operations.  `multiple_rows`
models SQLAlchemy's `MultipleResultsFound` raised by `one_or_none`;
`no_response`, `invalid_json` and `unpack` model the failure modes of
`get_openai_chatcompletion`; `unique_violation` models a database
`IntegrityError` on a violated unique constraint. -/
inductive PipelineErr where
  | multiple_rows
  | no_response
  | invalid_json (content : String)
  | unpack (n : Nat)
  | unique_violation
deriving DecidableEq

/-- SQLAlchemy `Result.one_or_none()` / `scalar_one_or_none()`: `none` for an
empty result, the single row when there is exactly one, and an error when
more than one row matches. -/
def one_or_none : List α → Except PipelineErr (Option α)
  | [] => .ok none
  | [x] => .ok (some x)
  | _ => .error .multiple_rows

/-- A row of the `language` table (`summaree_bot/models/models.py`):
human-readable `name`, IETF tag and DeepL code. -/
structure Language where
  name : String
  ietf_tag : String
  code : String
deriving DecidableEq

/-- A row of the `transcript` table (`summaree_bot/models/models.py`,
`class Transcript`).  `file_unique_id` and `sha256_hash` are the two
unique-constrained lookup keys; `result` is the merged transcription text;
`input_language` (nullable) is back-filled later. -/
structure Transcript where
  file_unique_id : String
  file_id : String
  sha256_hash : String
  duration : Nat
  mime_type : String
  file_size : Nat
  result : String
  input_language : Option Language
deriving DecidableEq

/-- The provider-side media handle (Telegram `Voice`/`Audio` object): the
fields of it that `transcribe_file` copies into a new `Transcript`. -/
structure MediaHandle where
  file_unique_id : String
  file_id : String
  duration : Nat
  mime_type : String
  file_size : Nat
deriving DecidableEq

/-- Result of the whisper transcription merge (dataclass
`WhisperTranscription` in `summaree_bot/integrations/openai.py`). -/
structure WhisperTranscription where
  text : String
  language : Option String
deriving DecidableEq

/-- Model of `_check_existing_transcript` (`summaree_bot/bot/common.py`): look the
handle's `file_unique_id` up in the transcript store
(`select(Transcript).where(Transcript.file_unique_id == file_unique_id)`,
`.one_or_none()`). -/
def check_existing_transcript (store : List Transcript) (file_unique_id : String) :
    Except PipelineErr (Option Transcript) :=
  one_or_none (store.filter (fun t => t.file_unique_id == file_unique_id))

/-- The language lookup inside `transcribe_file`: the walrus
`if transcript_language_str := whisper_transcription.language:` skips the
lookup for `None` and for the falsy empty string; otherwise
`select(Language).where(func.regexp_like(Language.name,
f"^{transcript_language_str.capitalize()}"))` with `scalar_one_or_none()`. -/
def lookup_input_language (languages : List Language) :
    Option String → Except PipelineErr (Option Language)
  | none => .ok none
  | some lang_str =>
    if lang_str = "" then .ok none
    else one_or_none (languages.filter (fun L => lang_str.capitalize.isPrefixOf L.name))

/-- Model of `transcribe_file` (`summaree_bot/integrations/openai.py`): hash the
downloaded bytes with SHA-256 (`hashFn` oracle), return the cached
`Transcript` on a hash hit without writing; on a miss run the whisper
transcription (`whisper` oracle, the expensive path — the returned counter
counts its invocations) and insert a new `Transcript` carrying the hash and
the handle's metadata. -/
def transcribe_file (hashFn : List Nat → String)
    (whisper : List Nat → WhisperTranscription) (languages : List Language)
    (store : List Transcript) (handle : MediaHandle) (file_bytes : List Nat) :
    Except PipelineErr (Transcript × List Transcript × Nat) :=
  match one_or_none (store.filter (fun t => t.sha256_hash == hashFn file_bytes)) with
  | .error e => .error e
  | .ok (some t) => .ok (t, store, 0)
  | .ok none =>
    match lookup_input_language languages (whisper file_bytes).language with
    | .error e => .error e
    | .ok input_language =>
      let t : Transcript :=
        { file_unique_id := handle.file_unique_id
          file_id := handle.file_id
          sha256_hash := hashFn file_bytes
          duration := handle.duration
          mime_type := handle.mime_type
          file_size := handle.file_size
          result := (whisper file_bytes).text
          input_language := input_language }
      .ok (t, store ++ [t], 1)

/-- The transcript branch of `get_summary_msg` (`summaree_bot/bot/common.py`):
first `_check_existing_transcript` by provider handle id; only on a miss
download and call `transcribe_file`. -/
def get_or_create_transcript (hashFn : List Nat → String)
    (whisper : List Nat → WhisperTranscription) (languages : List Language)
    (store : List Transcript) (handle : MediaHandle) (file_bytes : List Nat) :
    Except PipelineErr (Transcript × List Transcript × Nat) :=
  match check_existing_transcript store handle.file_unique_id with
  | .error e => .error e
  | .ok (some t) => .ok (t, store, 0)
  | .ok none => transcribe_file hashFn whisper languages store handle file_bytes

/-! ## Concurrent whisper transcription and merge
(`get_whisper_transcription` in `summaree_bot/integrations/openai.py`) -/

/-- The per-chunk result of one `get_whisper_transcription_async` call:
`transcription_result.text` and `transcription_result.model_extra.get("language")`. -/
structure ChunkResult where
  text : String
  language : Option String
deriving DecidableEq

/-- The distinct values of `l` in order of first occurrence — the key order of
a Python `collections.Counter` built by iterating `l` (dicts preserve
insertion order). -/
def ordered_keys [DecidableEq α] : List α → List α
  | [] => []
  | x :: xs => x :: ordered_keys (xs.filter (fun y => decide (y ≠ x)))
termination_by l => l.length
decreasing_by
  simp only [List.length_cons]
  exact Nat.lt_succ_of_le (List.length_filter_le _ _)

/-- Python `Counter(l).most_common(1)[0][0]` with the `IndexError` of an empty list
mapped to `none`: the first-seen element of maximal multiplicity
(`heapq.nlargest` is stable, so ties keep Counter insertion order). -/
def most_common [DecidableEq α] (l : List α) : Option α :=
  (ordered_keys l).foldl
    (fun best y =>
      match best with
      | none => some y
      | some b => if l.count b < l.count y then some y else some b)
    none

/-- The merge step of `get_whisper_transcription`: join chunk texts with
`"\n"` in task order; take the most common per-chunk language (the
`IndexError` fallback makes the language `None` when there are no votes). -/
def whisper_merge (results : List ChunkResult) : WhisperTranscription :=
  { text := String.intercalate "\n" (results.map (fun r => r.text))
    language :=
      match most_common (results.map (fun r => r.language)) with
      | none => none
      | some v => v }

/-- The `asyncio.TaskGroup` fan-out of `get_whisper_transcription`: one task
per chunk, created in chunk order.  `schedule` is the order in which the
concurrent calls happen to complete; each completion fills the slot of its
own task.  The result table is indexed by task, not by completion. -/
def run_task_group (f : α → β) (chunks : List α)
    (schedule : List (Fin chunks.length)) : List (Option β) :=
  schedule.foldl (fun slots i => slots.set i.val (some (f (chunks.get i))))
    (List.replicate chunks.length none)

/-- Fan-in: `for task in tasks: task.result()` reads every slot in task
order; `none` (an unfinished task) means the fan-in cannot happen. -/
def collect : List (Option β) → Option (List β)
  | [] => some []
  | none :: _ => none
  | some b :: rest => (collect rest).map (fun l => b :: l)

/-- Model of `get_whisper_transcription` after chunking: run all per-chunk calls
concurrently under a completion `schedule`, then merge in task order. -/
def get_whisper_transcription (f : α → ChunkResult) (chunks : List α)
    (schedule : List (Fin chunks.length)) : Option WhisperTranscription :=
  (collect (run_task_group f chunks schedule)).map whisper_merge

/-! ## Structured summarization with JSON repair loop
(`get_openai_chatcompletion`, `_summarize` in
`summaree_bot/integrations/openai.py`) -/

/-- A chat message (the dicts in the `messages` list). -/
structure ChatMsg where
  role : String
  content : String
deriving DecidableEq

/-- The parsed structured summary payload: the two fields `_summarize`
reads from the model's JSON (`summary_data["topics"]`,
`summary_data["language"]`). -/
structure SummaryData where
  topics : List String
  language : String
deriving DecidableEq

/-- Outcome of `get_openai_chatcompletion`: the result (or the exception it
raises), the number of model calls made, and the `messages` list as sent on
the last call that was made. -/
structure ChatOutcome where
  result : Except PipelineErr SummaryData
  calls : Nat
  messages : List ChatMsg

/-- The corrective user turn appended on a JSON parse failure. -/
def json_retry_instruction : String :=
  "Your last message was not valid JSON. Please correct your last answer. Your answer should contain nothing but the JSON"

/-- The markdown-fence stripping before `json.loads`: a content starting
with three backticks (`content.startswith`, expressed as a character-list
prefix test) has its first and last lines removed. -/
def strip_code_fence (content : String) : String :=
  if "```".toList.isPrefixOf content.toList then
    String.intercalate "\n" (((content.splitOn "\n").drop 1).dropLast)
  else content

/-- Model of `get_openai_chatcompletion(messages, n_retry=1, max_retries=2)`.
The model is an oracle stream `responses` (one entry per call, each a list
of choice contents) plus a `parse` oracle for `json.loads`.  Unpacking
`[choice] = summary_result.choices` fails for zero or several choices and
that failure propagates immediately (it is a `ValueError`, which the
`except IndexError` clause does not catch).  A `JSONDecodeError` re-raises
once `n_retry == max_retries`, otherwise the failed assistant turn and the
corrective instruction are appended and the call recurses. -/
def get_openai_chatcompletion (parse : String → Option SummaryData) :
    List (List String) → List ChatMsg → Nat → Nat → ChatOutcome
  | [], messages, _, _ => ⟨.error .no_response, 0, messages⟩
  | choices :: rest, messages, n_retry, max_retries =>
    match choices with
    | [content] =>
      match parse (strip_code_fence content) with
      | some data => ⟨.ok data, 1, messages⟩
      | none =>
        if n_retry == max_retries then ⟨.error (.invalid_json content), 1, messages⟩
        else
          let messages' := messages ++
            [⟨"assistant", content⟩, ⟨"user", json_retry_instruction⟩]
          let o := get_openai_chatcompletion parse rest messages' (n_retry + 1) max_retries
          ⟨o.result, o.calls + 1, o.messages⟩
    | cs => ⟨.error (.unpack cs.length), 1, messages⟩

/-- A row of the `topic` table: text plus the explicit 1-based order. -/
structure Topic where
  text : String
  order : Nat
deriving DecidableEq

/-- A row of the `summary` table (`class Summary` in
`summaree_bot/models/models.py`): owned topics, requester bookkeeping, and
the nullable OpenAI usage columns (`openai_id`, `openai_model`,
`completion_tokens`, `prompt_tokens`). -/
structure Summary where
  topics : List Topic
  tg_user_id : Int
  tg_chat_id : Int
  openai_id : Option String
  openai_model : Option String
  completion_tokens : Option Nat
  prompt_tokens : Option Nat
deriving DecidableEq

/-- The unit-of-work state `_summarize` reads and writes: the transcript row
and its (at most one, via the one-to-one relationship) summary row. -/
structure SummarizeState where
  transcript : Transcript
  summary : Option Summary
deriving DecidableEq

/-- The language back-fill inside `_summarize`: only when
`transcript.input_language is None`, look the reported IETF tag up
(`select(Language).where(Language.ietf_tag == summary_data["language"])`,
`.one_or_none()`); a miss merely logs a warning. -/
def backfill_input_language (languages : List Language) (transcript : Transcript)
    (summary_data : SummaryData) : Except PipelineErr Transcript :=
  if transcript.input_language.isNone then
    match one_or_none (languages.filter (fun L => L.ietf_tag == summary_data.language)) with
    | .error e => .error e
    | .ok none => .ok transcript
    | .ok (some language) => .ok { transcript with input_language := some language }
  else .ok transcript

/-- Model of `_summarize` (`summaree_bot/integrations/openai.py`): return the existing
summary unchanged if there is one (no model call); otherwise run the
structured completion (`llm` oracle — in the code,
`get_openai_chatcompletion` on the system + user messages), back-fill the
transcript language, and create the `Summary` with 1-based ordered topics.
The counter counts model invocations.  Note the `Summary(...)` constructor
passes none of the OpenAI usage columns, so they remain `None`. -/
def summarize (languages : List Language)
    (llm : List ChatMsg → Except PipelineErr SummaryData) (system_msg : String)
    (st : SummarizeState) (tg_user_id tg_chat_id : Int) :
    Except PipelineErr (Summary × SummarizeState × Nat) :=
  match st.summary with
  | some s => .ok (s, st, 0)
  | none =>
    match llm [⟨"system", system_msg⟩, ⟨"user", st.transcript.result⟩] with
    | .error e => .error e
    | .ok summary_data =>
      match backfill_input_language languages st.transcript summary_data with
      | .error e => .error e
      | .ok transcript =>
        let summary : Summary :=
          { topics := (List.enumFrom 1 summary_data.topics).map (fun p => ⟨p.2, p.1⟩)
            tg_user_id := tg_user_id
            tg_chat_id := tg_chat_id
            openai_id := none
            openai_model := none
            completion_tokens := none
            prompt_tokens := none }
        .ok (summary, ⟨transcript, some summary⟩, 1)

/-! ## Translation cache
(`_translate_topic` in `summaree_bot/integrations/deepl.py`,
`TopicTranslation` in `summaree_bot/models/models.py`) -/

/-- A row of the `translation` table (`class TopicTranslation`): foreign keys
to the topic and the target language, plus the translated text. -/
structure TopicTranslation where
  topic_id : Nat
  target_lang_id : Nat
  target_text : String
deriving DecidableEq

/-- The filter of `_translate_topic`'s lookup:
`.where(TopicTranslation.target_lang == target_language)
 .where(TopicTranslation.topic == topic)`. -/
def translation_matches (topic_id target_lang_id : Nat) (t : TopicTranslation) : Bool :=
  t.target_lang_id == target_lang_id && t.topic_id == topic_id

/-- Model of `_translate_topic`: return the cached row for the pair if present;
otherwise call the translation service (`translate` oracle) once and insert
a new row. -/
def translate_topic (translate : String → String) (store : List TopicTranslation)
    (topic_id target_lang_id : Nat) (topic_text : String) :
    Except PipelineErr (TopicTranslation × List TopicTranslation) :=
  match one_or_none (store.filter (translation_matches topic_id target_lang_id)) with
  | .error e => .error e
  | .ok (some translation) => .ok (translation, store)
  | .ok none =>
    let translation : TopicTranslation := ⟨topic_id, target_lang_id, translate topic_text⟩
    .ok (translation, store ++ [translation])

/-- A column declaration of a mapped table (`mapped_column` in
`summaree_bot/models/models.py`): its name and whether it carries a
single-column unique constraint (`unique=True` or a primary key). -/
structure ColumnDef where
  name : String
  primary_key : Bool
  unique : Bool
deriving DecidableEq

/-- The columns `class TopicTranslation` declares for the `translation`
table: only the `id` primary key; no column and no `__table_args__`
declaration makes (`topic_id`, `target_lang_id`) unique. -/
def translation_table_columns : List ColumnDef :=
  [⟨"id", true, false⟩, ⟨"finished_at", false, false⟩,
   ⟨"target_lang_id", false, false⟩, ⟨"target_text", false, false⟩,
   ⟨"topic_id", false, false⟩]

/-- Multi-column unique constraints declared on the `translation` table:
`class TopicTranslation` has no `__table_args__`, hence none. -/
def translation_table_unique_constraints : List (List String) := []

/-- Column values of a `translation` row, for checking declared unique
constraints on insert. -/
def translation_col_value (t : TopicTranslation) : String → String
  | "topic_id" => toString t.topic_id
  | "target_lang_id" => toString t.target_lang_id
  | "target_text" => t.target_text
  | _ => ""

/-- The storage layer's insert: it raises `IntegrityError` exactly when a
declared multi-column unique constraint is violated by an existing row. -/
def db_insert (unique_constraints : List (List String))
    (col_value : TopicTranslation → String → String)
    (store : List TopicTranslation) (t : TopicTranslation) :
    Except PipelineErr (List TopicTranslation) :=
  if unique_constraints.any
      (fun cols => store.any (fun u => cols.all (fun c => col_value u c == col_value t c)))
  then .error .unique_violation
  else .ok (store ++ [t])

/-- Two concurrent `_translate_topic` executions for the same pair, in the
race interleaving the spec describes: both sessions run their SELECT against
the same store state before either commits, then both commit their INSERT
(checked against the constraints the `translation` table declares). -/
def translate_topic_race (translate : String → String) (store : List TopicTranslation)
    (topic_id target_lang_id : Nat) (topic_text : String) :
    Except PipelineErr (List TopicTranslation) :=
  match one_or_none (store.filter (translation_matches topic_id target_lang_id)),
        one_or_none (store.filter (translation_matches topic_id target_lang_id)) with
  | .error e, _ => .error e
  | .ok _, .error e => .error e
  | .ok r1, .ok r2 =>
    let commit := fun (s : List TopicTranslation) (r : Option TopicTranslation) =>
      match r with
      | some _ => Except.ok s
      | none => db_insert translation_table_unique_constraints translation_col_value s
          ⟨topic_id, target_lang_id, translate topic_text⟩
    match commit store r1 with
    | .error e => .error e
    | .ok s1 =>
      match commit s1 r2 with
      | .error e => .error e
      | .ok s2 => .ok s2

/-! ## Audio chunk planner
(`split_audio`, `get_even_splits`, `get_sizes` in
`summaree_bot/integrations/audio.py`).  Float arithmetic is modelled with
exact rationals. -/

/-- Python `int()` on a float/rational: truncation toward zero. -/
def py_int (q : ℚ) : ℤ := if 0 ≤ q then q.floor else -((-q).floor)

/-- The output of `get_silent_segments`: stream `bitrate` (kbit/s), total
duration in seconds, and the detected `(silence_start, silence_end)`
intervals. -/
structure Analysis where
  bitrate : ℚ
  total_seconds : ℚ
  silent_segments : List (ℚ × ℚ)
deriving DecidableEq

/-- Consecutive deltas: the `length = segment - current_pos` stream of
`get_sizes`, starting at `start`. -/
def deltas (start : ℚ) : List ℚ → List ℚ
  | [] => []
  | s :: rest => (s - start) :: deltas s rest

/-- Model of `get_sizes(segments, analysis)`: estimated size in kB
(`length * bitrate / 8`) of each span between consecutive split boundaries,
starting from position 0.  The span from the last boundary to the end of
the stream is not part of this generator. -/
def get_sizes (segments : List ℚ) (bitrate : ℚ) : List ℚ :=
  (deltas 0 segments).map (fun len => len * bitrate / 8)

/-- The midpoint walk of `split_audio`: iterate `pairwise(splits)` keeping a
running `current_start`; `none` models the `break` into the even-split
fallback when a single span up to `split1` already exceeds the budget
(`Δt * bitrate / 1024 / 8 > max_size_mb`, in MB); otherwise emit `split1`
whenever extending to `split2` would exceed the budget. -/
def silence_loop (bitrate max_size_mb : ℚ) :
    List (ℚ × ℚ) → ℚ → List ℚ → Option (List ℚ)
  | [], _, segments => some segments
  | (split1, split2) :: rest, current_start, segments =>
    if max_size_mb < (split1 - current_start) * bitrate / 1024 / 8 then none
    else if max_size_mb < (split2 - current_start) * bitrate / 1024 / 8 then
      silence_loop bitrate max_size_mb rest split1 (segments ++ [split1])
    else silence_loop bitrate max_size_mb rest current_start segments

/-- Model of `get_even_splits(input_file, analysis, max_size_mb)`: chunk count from
the raw file size in kB (`st_size / 1024`) against `max_size_mb * 1024`,
rounded up; boundaries are the interior points of
`np.linspace(0, int(seconds_total) + 1, n_chunks + 1)`. -/
def get_even_splits (st_size : Nat) (total_seconds max_size_mb : ℚ) : List ℚ :=
  let file_size : ℚ := (st_size : ℚ) / 1024
  let chunksize : ℚ := max_size_mb * 1024
  let ratio : ℚ := file_size / chunksize
  let n_chunks : ℤ := if ratio.den = 1 then ratio.num else ratio.floor + 1
  let t_end : ℚ := ((py_int total_seconds : ℤ) : ℚ) + 1
  (List.range (n_chunks - 1).toNat).map
    (fun k => ((k : ℚ) + 1) * t_end / (n_chunks : ℚ))

/-- The boundary-planning part of `split_audio` (the ffmpeg export and the
subprocess silence detection stay external): walk the silence midpoints,
fall back to the even split on an in-walk overflow, on the post-hoc
`get_sizes` check (`size > max_size_mb * 1024`, in kB), or when no segment
was produced. -/
def split_audio_segments (a : Analysis) (st_size : Nat) (max_size_mb : ℚ) : List ℚ :=
  let even := get_even_splits st_size a.total_seconds max_size_mb
  let segments :=
    if a.silent_segments.isEmpty then ([] : List ℚ)
    else
      let splits := a.silent_segments.map (fun p => (p.1 + p.2) / 2)
      let walked :=
        match silence_loop a.bitrate max_size_mb (splits.zip splits.tail) 0 [] with
        | none => even
        | some s => s
      if (get_sizes walked a.bitrate).any (fun size => max_size_mb * 1024 < size)
      then even else walked
  if segments.isEmpty then even else segments

/-- The durations of the chunks the ffmpeg `-f segment` export produces from
a boundary plan: the spans between consecutive boundaries, from 0 to the
total duration — including the final tail span after the last boundary. -/
def chunk_deltas (segments : List ℚ) (total_seconds : ℚ) : List ℚ :=
  deltas 0 (segments ++ [total_seconds])

/-! ## Helper lemmas -/

lemma one_or_none_of_length_le_one {α} (l : List α) (h : l.length ≤ 1) :
    ∃ o, one_or_none l = .ok o := by
  match l with
  | [] => exact ⟨none, rfl⟩
  | [x] => exact ⟨some x, rfl⟩
  | x :: y :: rest => simp [List.length_cons] at h

/-! ## C10: zero or several choices fail immediately, outside the retry budget -/

/-- C10: in `get_openai_chatcompletion`, the retry/repair budget applies only
to JSON parse failures of a single choice's content.  Whenever a model
response carries zero or more than one choices, the unpacking error is
raised immediately: exactly one call is made, no corrective turn is
appended to the conversation, and the retry counter is not consumed —
whatever the remaining budget. -/
theorem C10_unpack_error_is_immediate (parse : String → Option SummaryData)
    (choices : List String) (rest : List (List String)) (messages : List ChatMsg)
    (n_retry max_retries : Nat) (h : choices.length ≠ 1) :
    get_openai_chatcompletion parse (choices :: rest) messages n_retry max_retries =
      ⟨.error (.unpack choices.length), 1, messages⟩ := by
  match choices with
  | [] => rfl
  | [c] => exact absurd rfl h
  | c1 :: c2 :: cs => rfl

/-- C10 witness: a concrete two-choice response errors immediately on the
first call with the conversation untouched, despite a full retry budget. -/
theorem C10_unpack_error_is_immediate_witness :
    (["a", "b"] : List String).length ≠ 1 ∧
    get_openai_chatcompletion (fun _ => none) [["a", "b"], ["a"]]
        [⟨"system", "s"⟩] 1 2 =
      ⟨.error (.unpack 2), 1, [⟨"system", "s"⟩]⟩ :=
  ⟨by decide,
   C10_unpack_error_is_immediate (fun _ => none) ["a", "b"] [["a"]]
     [⟨"system", "s"⟩] 1 2 (by decide)⟩

/-! ## C4: the JSON repair loop is bounded by 2 attempts total -/

/-- C4: with the default budget (`n_retry=1`, `max_retries=2`), a malformed
response followed by a valid one yields the parsed result after exactly 2
model calls, with the failed assistant turn plus the corrective instruction
appended to the conversation before the second call; two consecutive
malformed responses raise the fatal JSON error after exactly 2 calls, and a
summarization driven by such a model persists nothing (no `Summary` and no
state are produced). -/
theorem C4_repair_loop_budget (parse : String → Option SummaryData) (m v : String)
    (d : SummaryData) (messages : List ChatMsg)
    (hm : parse (strip_code_fence m) = none)
    (hv : parse (strip_code_fence v) = some d) :
    get_openai_chatcompletion parse [[m], [v]] messages 1 2 =
      ⟨.ok d, 2, messages ++ [⟨"assistant", m⟩, ⟨"user", json_retry_instruction⟩]⟩ ∧
    get_openai_chatcompletion parse [[m], [m]] messages 1 2 =
      ⟨.error (.invalid_json m), 2,
        messages ++ [⟨"assistant", m⟩, ⟨"user", json_retry_instruction⟩]⟩ ∧
    ∀ (languages : List Language) (system_msg : String) (tr : Transcript)
      (uid cid : Int),
      summarize languages
          (fun msgs => (get_openai_chatcompletion parse [[m], [m]] msgs 1 2).result)
          system_msg ⟨tr, none⟩ uid cid =
        .error (.invalid_json m) := by
  refine ⟨?_, ?_, ?_⟩
  · simp [get_openai_chatcompletion, hm, hv]
  · simp [get_openai_chatcompletion, hm]
  · intro languages system_msg tr uid cid
    simp [summarize, get_openai_chatcompletion, hm]

/-- C4 witness: a concrete parser and transcripts exercising both the
repaired and the exhausted run of the loop. -/
theorem C4_repair_loop_budget_witness :
    ((fun s => if s = "ok" then some (⟨["t"], "en"⟩ : SummaryData) else none)
        (strip_code_fence "bad") = none) ∧
    ((fun s => if s = "ok" then some (⟨["t"], "en"⟩ : SummaryData) else none)
        (strip_code_fence "ok") = some ⟨["t"], "en"⟩) ∧
    get_openai_chatcompletion
        (fun s => if s = "ok" then some (⟨["t"], "en"⟩ : SummaryData) else none)
        [["bad"], ["ok"]] [⟨"system", "s"⟩] 1 2 =
      ⟨.ok ⟨["t"], "en"⟩, 2,
        [⟨"system", "s"⟩] ++ [⟨"assistant", "bad"⟩, ⟨"user", json_retry_instruction⟩]⟩ :=
  ⟨by decide, by decide,
   (C4_repair_loop_budget
     (fun s => if s = "ok" then some (⟨["t"], "en"⟩ : SummaryData) else none)
     "bad" "ok" ⟨["t"], "en"⟩ [⟨"system", "s"⟩] (by decide) (by decide)).1⟩

/-! ## C8: summarize is idempotent -/

/-- C8: `_summarize` applied to a transcript that already has a summary
returns it unchanged with zero model calls; consequently after any
successful summarization, a second run returns the identical `Summary`,
leaves the state untouched (no duplicate is created), and makes no model
call — so summarization runs at most once per transcript. -/
theorem C8_summarize_idempotent (languages : List Language)
    (llm : List ChatMsg → Except PipelineErr SummaryData) (system_msg : String)
    (st : SummarizeState) (uid cid : Int) (s : Summary) (st2 : SummarizeState)
    (n : Nat)
    (h : summarize languages llm system_msg st uid cid = .ok (s, st2, n)) :
    summarize languages llm system_msg st2 uid cid = .ok (s, st2, 0) ∧ n ≤ 1 := by
  cases hsum : st.summary with
  | some s0 =>
    simp only [summarize, hsum, Except.ok.injEq, Prod.mk.injEq] at h
    obtain ⟨h1, h2, h3⟩ := h
    subst h1; subst h2; subst h3
    simp [summarize, hsum]
  | none =>
    cases hllm : llm [⟨"system", system_msg⟩, ⟨"user", st.transcript.result⟩] with
    | error e =>
      simp only [summarize, hsum, hllm] at h
      exact Except.noConfusion h
    | ok data =>
      cases hbf : backfill_input_language languages st.transcript data with
      | error e =>
        simp only [summarize, hsum, hllm, hbf] at h
        exact Except.noConfusion h
      | ok tr =>
        simp only [summarize, hsum, hllm, hbf, Except.ok.injEq, Prod.mk.injEq] at h
        obtain ⟨h1, h2, h3⟩ := h
        subst h1; subst h2; subst h3
        simp [summarize]

/-- C8 witness: a fresh transcript is summarized once (one model call); the
theorem applied to that run shows the second call returns the identical
summary with no model call and no new row. -/
theorem C8_summarize_idempotent_witness :
    summarize [⟨"English", "en", "EN-US"⟩] (fun _ => .ok ⟨["a"], "en"⟩) "sys"
        ⟨⟨"u", "f", "h", 1, "m", 2, "txt", none⟩, none⟩ 3 4 =
      .ok (⟨[⟨"a", 1⟩], 3, 4, none, none, none, none⟩,
        ⟨⟨"u", "f", "h", 1, "m", 2, "txt", some ⟨"English", "en", "EN-US"⟩⟩,
          some ⟨[⟨"a", 1⟩], 3, 4, none, none, none, none⟩⟩, 1) ∧
    (summarize [⟨"English", "en", "EN-US"⟩] (fun _ => .ok ⟨["a"], "en"⟩) "sys"
        ⟨⟨"u", "f", "h", 1, "m", 2, "txt", some ⟨"English", "en", "EN-US"⟩⟩,
          some ⟨[⟨"a", 1⟩], 3, 4, none, none, none, none⟩⟩ 3 4 =
      .ok (⟨[⟨"a", 1⟩], 3, 4, none, none, none, none⟩,
        ⟨⟨"u", "f", "h", 1, "m", 2, "txt", some ⟨"English", "en", "EN-US"⟩⟩,
          some ⟨[⟨"a", 1⟩], 3, 4, none, none, none, none⟩⟩, 0) ∧ 1 ≤ 1) :=
  ⟨rfl,
   C8_summarize_idempotent [⟨"English", "en", "EN-US"⟩] (fun _ => .ok ⟨["a"], "en"⟩)
     "sys" ⟨⟨"u", "f", "h", 1, "m", 2, "txt", none⟩, none⟩ 3 4 _ _ 1 rfl⟩

/-! ## C9: the usage columns are not recorded (code bug); the language is
back-filled -/

/-- C9: evaluating `_summarize` on a transcript without a summary and with
unknown input language.  The language is back-filled from the reported
IETF tag, but the created `Summary` carries `none` in `openai_id`,
`openai_model`, `completion_tokens` and `prompt_tokens`: the
`Summary(...)` constructor call in `_summarize` passes none of the usage
columns the schema provides for cost accounting, contradicting the claim
that the model id and the token counters are recorded (and leaving
`Summary.total_cost` to fail on `openai_model = None`). -/
theorem C9_usage_columns_left_empty :
    summarize [⟨"English", "en", "EN-US"⟩] (fun _ => .ok ⟨["t1", "t2"], "en"⟩) "sys"
        ⟨⟨"u", "f", "h", 5, "m", 9, "text", none⟩, none⟩ 7 9 =
      .ok (⟨[⟨"t1", 1⟩, ⟨"t2", 2⟩], 7, 9, none, none, none, none⟩,
        ⟨⟨"u", "f", "h", 5, "m", 9, "text", some ⟨"English", "en", "EN-US"⟩⟩,
          some ⟨[⟨"t1", 1⟩, ⟨"t2", 2⟩], 7, 9, none, none, none, none⟩⟩, 1) := by
  rfl

/-! ## C3: an empty merged transcription is persisted, not rejected
(code bug: `EmptyTranscription` is defined and handled but never raised) -/

/-- C3: a media payload whose single chunk transcribes to the empty string —
so the concatenated text `whisper_merge [⟨"", none⟩]` is empty — still gets
a `Transcript` with `result = ""` created, inserted into the store and
returned by the pipeline; no error of any kind is surfaced.  In the code no
call site raises `EmptyTranscription` (the class in
`summaree_bot/bot/exceptions.py` and its handler in
`process_transcription_request_message` are dead code), so the distinct
empty-transcription condition the claim describes never occurs. -/
theorem C3_empty_transcription_is_persisted :
    whisper_merge [⟨"", none⟩] = ⟨"", none⟩ ∧
    get_or_create_transcript (fun _ => "deadbeef") (fun _ => ⟨"", none⟩) [] []
        ⟨"u3", "f3", 5, "audio/ogg", 999⟩ [1, 2] =
      .ok (⟨"u3", "f3", "deadbeef", 5, "audio/ogg", 999, "", none⟩,
        [⟨"u3", "f3", "deadbeef", 5, "audio/ogg", 999, "", none⟩], 1) := by
  constructor
  · simp [whisper_merge, most_common, ordered_keys]
    rfl
  · rfl

/-! ## C2: no storage-layer uniqueness for topic translations -/

/-- C2 counterexample: the `translation` table declares no unique constraint
on (`topic_id`, `target_lang_id`) — no column of it is unique and no
`__table_args__` constraint exists — so in the select–select–insert–insert
interleaving of two concurrent `_translate_topic` runs for the same
uncached pair, both writers miss the cache and both inserts succeed: the
store ends up with two `TopicTranslation` rows for the pair and neither
writer detects any conflict, contradicting the claimed storage-enforced
at-most-one invariant. -/
theorem C2_counterexample_duplicate_pair :
    translate_topic_race (fun s => "T:" ++ s) [] 1 2 "hello" =
      .ok [⟨1, 2, "T:hello"⟩, ⟨1, 2, "T:hello"⟩] ∧
    (([⟨1, 2, "T:hello"⟩, ⟨1, 2, "T:hello"⟩] : List TopicTranslation).filter
      (translation_matches 1 2)).length = 2 ∧
    translation_table_unique_constraints = [] ∧
    translation_table_columns.filter (fun c => c.unique) = [] := by
  exact ⟨rfl, rfl, rfl, rfl⟩

/-- C2 as amended: uniqueness of (topic, target language) is maintained only
by `_translate_topic`'s application-level check-then-insert, which under
sequential execution returns the cached row on a second call, inserts
nothing and leaves exactly one row for the pair; the storage layer declares
no uniqueness constraint on the pair, so it cannot make a losing concurrent
writer detect the conflict. -/
theorem C2_amended_check_then_insert (translate : String → String)
    (store : List TopicTranslation) (topic_id target_lang_id : Nat) (text : String)
    (h : (store.filter (translation_matches topic_id target_lang_id)).length ≤ 1) :
    translation_table_unique_constraints = [] ∧
    ∃ tr store2,
      translate_topic translate store topic_id target_lang_id text = .ok (tr, store2) ∧
      translate_topic translate store2 topic_id target_lang_id text = .ok (tr, store2) ∧
      (store2.filter (translation_matches topic_id target_lang_id)).length = 1 := by
  refine ⟨rfl, ?_⟩
  match hF : store.filter (translation_matches topic_id target_lang_id), h with
  | [], _ =>
    refine ⟨⟨topic_id, target_lang_id, translate text⟩,
      store ++ [⟨topic_id, target_lang_id, translate text⟩], ?_, ?_, ?_⟩
    · simp [translate_topic, hF, one_or_none]
    · simp [translate_topic, List.filter_append, hF, one_or_none, translation_matches]
    · simp [List.filter_append, hF, translation_matches]
  | [t], _ =>
    refine ⟨t, store, ?_, ?_, ?_⟩
    · simp [translate_topic, hF, one_or_none]
    · simp [translate_topic, hF, one_or_none]
    · simp [hF]

/-- C2 witness: the amended sequential cache behaviour at a concrete store. -/
theorem C2_amended_check_then_insert_witness :
    (([] : List TopicTranslation).filter (translation_matches 1 2)).length ≤ 1 ∧
    (translation_table_unique_constraints = [] ∧
      ∃ tr store2,
        translate_topic (fun s => "T:" ++ s) [] 1 2 "hello" = .ok (tr, store2) ∧
        translate_topic (fun s => "T:" ++ s) store2 1 2 "hello" = .ok (tr, store2) ∧
        (store2.filter (translation_matches 1 2)).length = 1) :=
  ⟨by decide, C2_amended_check_then_insert (fun s => "T:" ++ s) [] 1 2 "hello" (by decide)⟩

/-! ## C1: content-hash dedup of the transcript pipeline -/

lemma lookup_input_language_ok (languages : List Language)
    (hlang : ∀ s : String, (languages.filter (fun L => s.isPrefixOf L.name)).length ≤ 1)
    (w : Option String) : ∃ o, lookup_input_language languages w = .ok o := by
  match w with
  | none => exact ⟨none, rfl⟩
  | some lang_str =>
    by_cases hempty : lang_str = ""
    · exact ⟨none, by simp [lookup_input_language, hempty]⟩
    · obtain ⟨o, ho⟩ :=
        one_or_none_of_length_le_one
          (languages.filter (fun L => lang_str.capitalize.isPrefixOf L.name))
          (hlang lang_str.capitalize)
      exact ⟨o, by simp [lookup_input_language, hempty, ho]⟩

/-- C1: two invocations of the transcript pipeline with byte-identical media
under two different, fresh provider handles return the very same
`Transcript`, whose identity is the content hash of the bytes; the
expensive whisper transcription runs at most once across both invocations
(the second performs zero); and cache hits write nothing: the second
invocation (a content-hash hit) and a repeat of the first handle (a
handle-id hit) both leave the store unchanged. -/
theorem C1_content_hash_dedup (hashFn : List Nat → String)
    (whisper : List Nat → WhisperTranscription) (languages : List Language)
    (s0 : List Transcript) (h1 h2 : MediaHandle) (file_bytes : List Nat)
    (hne : h1.file_unique_id ≠ h2.file_unique_id)
    (hfresh1 : ∀ t ∈ s0, t.file_unique_id ≠ h1.file_unique_id)
    (hfresh2 : ∀ t ∈ s0, t.file_unique_id ≠ h2.file_unique_id)
    (hhash : (s0.filter (fun t => t.sha256_hash == hashFn file_bytes)).length ≤ 1)
    (hlang : ∀ s : String, (languages.filter (fun L => s.isPrefixOf L.name)).length ≤ 1) :
    ∃ t1 s1 c1,
      get_or_create_transcript hashFn whisper languages s0 h1 file_bytes =
        .ok (t1, s1, c1) ∧
      get_or_create_transcript hashFn whisper languages s1 h2 file_bytes =
        .ok (t1, s1, 0) ∧
      get_or_create_transcript hashFn whisper languages s1 h1 file_bytes =
        .ok (t1, s1, 0) ∧
      t1.sha256_hash = hashFn file_bytes ∧ c1 ≤ 1 := by
  have huid1 : s0.filter (fun t => t.file_unique_id == h1.file_unique_id) = [] := by
    rw [List.filter_eq_nil_iff]
    intro t ht
    simpa using hfresh1 t ht
  have huid2 : s0.filter (fun t => t.file_unique_id == h2.file_unique_id) = [] := by
    rw [List.filter_eq_nil_iff]
    intro t ht
    simpa using hfresh2 t ht
  match hF : s0.filter (fun t => t.sha256_hash == hashFn file_bytes), hhash with
  | [t], _ =>
    have ht : t.sha256_hash = hashFn file_bytes := by
      have := List.mem_filter.mp (hF ▸ List.mem_singleton_self t)
      simpa using this.2
    refine ⟨t, s0, 0, ?_, ?_, ?_, ht, by norm_num⟩
    · simp [get_or_create_transcript, check_existing_transcript, huid1, one_or_none,
        transcribe_file, hF]
    · simp [get_or_create_transcript, check_existing_transcript, huid2, one_or_none,
        transcribe_file, hF]
    · simp [get_or_create_transcript, check_existing_transcript, huid1, one_or_none,
        transcribe_file, hF]
  | [], _ =>
    obtain ⟨olang, holang⟩ :=
      lookup_input_language_ok languages hlang (whisper file_bytes).language
    refine ⟨⟨h1.file_unique_id, h1.file_id, hashFn file_bytes, h1.duration,
        h1.mime_type, h1.file_size, (whisper file_bytes).text, olang⟩,
      s0 ++ [⟨h1.file_unique_id, h1.file_id, hashFn file_bytes, h1.duration,
        h1.mime_type, h1.file_size, (whisper file_bytes).text, olang⟩],
      1, ?_, ?_, ?_, rfl, le_refl 1⟩
    · simp [get_or_create_transcript, check_existing_transcript, huid1, one_or_none,
        transcribe_file, hF, holang]
    · simp [get_or_create_transcript, check_existing_transcript, transcribe_file,
        List.filter_append, huid2, hF, one_or_none, hne, Ne.symm hne]
    · simp [get_or_create_transcript, check_existing_transcript,
        List.filter_append, huid1, one_or_none]
  | x :: y :: rest, hlen =>
    rw [hF] at hlen
    simp only [List.length_cons] at hlen
    omega

/-- C1 witness: an empty store, two distinct handles, identical bytes. -/
theorem C1_content_hash_dedup_witness :
    ((⟨"u1", "f1", 1, "m", 2⟩ : MediaHandle).file_unique_id ≠
      (⟨"u2", "f2", 1, "m", 2⟩ : MediaHandle).file_unique_id) ∧
    (∀ s : String, (([] : List Language).filter
      (fun L => s.isPrefixOf L.name)).length ≤ 1) ∧
    ∃ t1 s1 c1,
      get_or_create_transcript (fun _ => "hh") (fun _ => ⟨"hello", none⟩) [] []

        ⟨"u1", "f1", 1, "m", 2⟩ [0] = .ok (t1, s1, c1) ∧
      get_or_create_transcript (fun _ => "hh") (fun _ => ⟨"hello", none⟩) [] s1
          ⟨"u2", "f2", 1, "m", 2⟩ [0] = .ok (t1, s1, 0) ∧
      get_or_create_transcript (fun _ => "hh") (fun _ => ⟨"hello", none⟩) [] s1
          ⟨"u1", "f1", 1, "m", 2⟩ [0] = .ok (t1, s1, 0) ∧
      t1.sha256_hash = (fun (_ : List Nat) => "hh") [0] ∧ c1 ≤ 1 :=
  ⟨by decide, by intro s; simp,
   C1_content_hash_dedup (fun _ => "hh") (fun _ => ⟨"hello", none⟩) [] []
     ⟨"u1", "f1", 1, "m", 2⟩ ⟨"u2", "f2", 1, "m", 2⟩ [0] (by decide)
     (by simp) (by simp) (by simp) (by intro s; simp)⟩

/-! ## C7: majority-vote language with first-seen tie-break -/

lemma mem_ordered_keys [DecidableEq α] {a : α} :
    ∀ {l : List α}, a ∈ ordered_keys l ↔ a ∈ l := by
  intro l
  induction l using ordered_keys.induct with
  | case1 => simp [ordered_keys]
  | case2 x xs ih =>
    rw [ordered_keys]
    simp only [List.mem_cons, ih, List.mem_filter, decide_eq_true_eq]
    by_cases hax : a = x
    · simp [hax]
    · simp [hax]

/-- Position of the first occurrence of `x` in `l` (the insertion position
that Python Counter ordering follows). -/
def first_idx [DecidableEq α] (x : α) (l : List α) : Nat :=
  l.findIdx (fun y => decide (y = x))

/-- Multiplicity of `x` in `l` (a Python Counter count), with the equality
test fixed to the decidable equality of the element type. -/
def vote_count [DecidableEq α] (x : α) (l : List α) : Nat :=
  List.count (α := α) x l

lemma first_idx_cons_self [DecidableEq α] (x : α) (l : List α) :
    first_idx x (x :: l) = 0 := by
  simp [first_idx, List.findIdx_cons]

lemma first_idx_cons_ne [DecidableEq α] (x c : α) (l : List α) (h : c ≠ x) :
    first_idx x (c :: l) = first_idx x l + 1 := by
  simp [first_idx, List.findIdx_cons, h]

lemma first_idx_filter_lt [DecidableEq α] (p : α → Bool) {a b : α} :
    ∀ l : List α, a ∈ l.filter p → b ∈ l.filter p →
      first_idx a (l.filter p) < first_idx b (l.filter p) →
      first_idx a l < first_idx b l := by
  intro l
  induction l with
  | nil => simp
  | cons c t ih =>
    intro ha hb hlt
    by_cases hpc : p c
    · rw [List.filter_cons_of_pos hpc] at ha hb hlt
      by_cases hac : a = c
      · subst hac
        rw [first_idx_cons_self] at hlt
        have hbc : b ≠ a := by
          intro h
          subst h
          rw [first_idx_cons_self] at hlt
          omega
        rw [first_idx_cons_self, first_idx_cons_ne _ _ _ (fun h => hbc h.symm)]
        omega
      · by_cases hbc : b = c
        · subst hbc
          rw [first_idx_cons_self] at hlt
          omega
        · rw [first_idx_cons_ne _ _ _ (fun h => hac h.symm),
            first_idx_cons_ne _ _ _ (fun h => hbc h.symm)] at hlt
          rw [first_idx_cons_ne _ _ _ (fun h => hac h.symm),
            first_idx_cons_ne _ _ _ (fun h => hbc h.symm)]
          have ha2 : a ∈ t.filter p := by
            rcases List.mem_cons.mp ha with h | h
            · exact absurd h hac
            · exact h
          have hb2 : b ∈ t.filter p := by
            rcases List.mem_cons.mp hb with h | h
            · exact absurd h hbc
            · exact h
          have := ih ha2 hb2 (by omega)
          omega
    · rw [List.filter_cons_of_neg hpc] at ha hb hlt
      have hac : a ≠ c := by
        intro h
        subst h
        exact hpc (List.mem_filter.mp ha).2
      have hbc : b ≠ c := by
        intro h
        subst h
        exact hpc (List.mem_filter.mp hb).2
      rw [first_idx_cons_ne _ _ _ (fun h => hac h.symm),
        first_idx_cons_ne _ _ _ (fun h => hbc h.symm)]
      have := ih ha hb hlt
      omega

lemma ordered_keys_sorted [DecidableEq α] : ∀ l : List α,
    (ordered_keys l).Pairwise (fun a b => first_idx a l < first_idx b l) := by
  intro l
  induction l using ordered_keys.induct with
  | case1 => simp [ordered_keys]
  | case2 x xs ih =>
    rw [ordered_keys]
    refine List.Pairwise.cons ?_ ?_
    · intro b hb
      have hbF := mem_ordered_keys.mp hb
      have hbx : b ≠ x := by simpa using (List.mem_filter.mp hbF).2
      rw [first_idx_cons_self, first_idx_cons_ne _ _ _ (fun h => hbx h.symm)]
      omega
    · refine List.Pairwise.imp_of_mem ?_ ih
      intro a b ha hb hab
      have haF := mem_ordered_keys.mp ha
      have hbF := mem_ordered_keys.mp hb
      have hax : a ≠ x := by simpa using (List.mem_filter.mp haF).2
      have hbx : b ≠ x := by simpa using (List.mem_filter.mp hbF).2
      have hxs : first_idx a xs < first_idx b xs := first_idx_filter_lt _ xs haF hbF hab
      rw [first_idx_cons_ne _ _ _ (fun h => hax h.symm),
        first_idx_cons_ne _ _ _ (fun h => hbx h.symm)]
      omega

lemma foldl_best_spec [DecidableEq α] (l : List α) :
    ∀ (keys : List α) (b : α),
      ((b :: keys).Pairwise (fun a c => first_idx a l < first_idx c l)) →
      ∃ r,
        keys.foldl
          (fun best y =>
            match best with
            | none => some y
            | some bb => if l.count bb < l.count y then some y else some bb)
          (some b) = some r ∧
        r ∈ b :: keys ∧
        (∀ y ∈ b :: keys, l.count y ≤ l.count r) ∧
        (∀ y ∈ b :: keys, l.count y = l.count r → first_idx r l ≤ first_idx y l) := by
  intro keys
  induction keys with
  | nil =>
    intro b hpw
    exact ⟨b, rfl, List.mem_singleton_self b, by simp, by simp⟩
  | cons k keys ih =>
    intro b hpw
    rw [List.foldl_cons]
    have hred : (match some b with
        | none => some k
        | some bb => if l.count bb < l.count k then some k else some bb)
        = if l.count b < l.count k then some k else some b := rfl
    rw [hred]
    by_cases hlt : l.count b < l.count k
    · rw [if_pos hlt]
      obtain ⟨r, hr, hmem, hmax, htie⟩ := ih k hpw.of_cons
      refine ⟨r, hr, List.mem_cons_of_mem b hmem, ?_, ?_⟩
      · intro y hy
        rcases List.mem_cons.mp hy with rfl | hy2
        · exact le_trans (le_of_lt hlt) (hmax k (List.mem_cons_self k keys))
        · exact hmax y hy2
      · intro y hy hcnt
        rcases List.mem_cons.mp hy with rfl | hy2
        · exfalso
          have := hmax k (List.mem_cons_self k keys)
          omega
        · exact htie y hy2 hcnt
    · rw [if_neg hlt]
      have hpw2 : (b :: keys).Pairwise (fun a c => first_idx a l < first_idx c l) := by
        rcases List.pairwise_cons.mp hpw with ⟨h1, h2⟩
        rcases List.pairwise_cons.mp h2 with ⟨h2a, h2b⟩
        exact List.pairwise_cons.mpr
          ⟨fun y hy => h1 y (List.mem_cons_of_mem k hy), h2b⟩
      obtain ⟨r, hr, hmem, hmax, htie⟩ := ih b hpw2
      refine ⟨r, hr, ?_, ?_, ?_⟩
      · rcases List.mem_cons.mp hmem with rfl | h
        · exact List.mem_cons_self r _
        · exact List.mem_cons_of_mem _ (List.mem_cons_of_mem _ h)
      · intro y hy
        rcases List.mem_cons.mp hy with rfl | hy2
        · exact hmax y (List.mem_cons_self y keys)
        · rcases List.mem_cons.mp hy2 with rfl | hy3
          · exact le_trans (Nat.not_lt.mp hlt) (hmax b (List.mem_cons_self b keys))
          · exact hmax y (List.mem_cons_of_mem b hy3)
      · intro y hy hcnt
        rcases List.mem_cons.mp hy with rfl | hy2
        · exact htie y (List.mem_cons_self y keys) hcnt
        · rcases List.mem_cons.mp hy2 with rfl | hy3
          · have hkb : l.count y ≤ l.count b := Nat.not_lt.mp hlt
            have hbr : l.count b ≤ l.count r := hmax b (List.mem_cons_self b keys)
            have hbr2 : l.count b = l.count r := by omega
            have hrb : first_idx r l ≤ first_idx b l :=
              htie b (List.mem_cons_self b keys) hbr2
            have hbk : first_idx b l < first_idx y l :=
              (List.pairwise_cons.mp hpw).1 y (List.mem_cons_self y keys)
            omega
          · exact htie y (List.mem_cons_of_mem b hy3) hcnt

/-- C7: the merged transcript language is the mode of the per-chunk detected
languages with ties broken in favour of the first-seen vote: for every
nonempty chunk-result list, `whisper_merge` picks a vote of maximal
multiplicity whose first occurrence is no later than that of any other vote
of the same multiplicity; in particular votes `[en, en, de]` yield `en` and
the tie `[en, de]` yields `en`. -/
theorem C7_majority_language_mode :
    (∀ results : List ChunkResult, results ≠ [] →
      ∃ v, most_common (results.map (fun r => r.language)) = some v ∧
        (whisper_merge results).language = v ∧
        v ∈ results.map (fun r => r.language) ∧
        (∀ w ∈ results.map (fun r => r.language),
          vote_count w (results.map (fun r => r.language)) ≤
            vote_count v (results.map (fun r => r.language))) ∧
        (∀ w ∈ results.map (fun r => r.language),
          vote_count w (results.map (fun r => r.language)) =
              vote_count v (results.map (fun r => r.language)) →
            first_idx v (results.map (fun r => r.language)) ≤
              first_idx w (results.map (fun r => r.language)))) ∧
    (∀ results : List ChunkResult,
      results.map (fun r => r.language) = [some "en", some "en", some "de"] →
      (whisper_merge results).language = some "en") ∧
    (∀ results : List ChunkResult,
      results.map (fun r => r.language) = [some "en", some "de"] →
      (whisper_merge results).language = some "en") := by
  refine ⟨?_, ?_, ?_⟩
  · intro results hne
    set votes := results.map (fun r => r.language) with hvotes
    have hvne : votes ≠ [] := by
      simpa [hvotes] using hne
    cases hok : ordered_keys votes with
    | nil =>
      exfalso
      obtain ⟨w, hw⟩ := List.exists_mem_of_ne_nil votes hvne
      have := mem_ordered_keys.mpr hw
      rw [hok] at this
      exact absurd this (List.not_mem_nil w)
    | cons k K =>
      have hpw : (k :: K).Pairwise (fun a b => first_idx a votes < first_idx b votes) := by
        have := ordered_keys_sorted votes
        rwa [hok] at this
      obtain ⟨r, hr, hmem, hmax, htie⟩ := foldl_best_spec votes K k hpw
      have hmc : most_common votes = some r := by
        rw [most_common, hok]
        simpa using hr
      refine ⟨r, hmc, ?_, ?_, ?_, ?_⟩
      · simp [whisper_merge, ← hvotes, hmc]
      · have : r ∈ ordered_keys votes := by rw [hok]; exact hmem
        exact mem_ordered_keys.mp this
      · intro w hw
        have : w ∈ k :: K := by
          rw [← hok]
          exact mem_ordered_keys.mpr hw
        exact hmax w this
      · intro w hw hcnt
        have : w ∈ k :: K := by
          rw [← hok]
          exact mem_ordered_keys.mpr hw
        exact htie w this hcnt
  · intro results hmap
    simp only [whisper_merge, hmap]
    simp +decide [most_common, ordered_keys, List.count_cons, List.filter]
  · intro results hmap
    simp only [whisper_merge, hmap]
    simp +decide [most_common, ordered_keys, List.count_cons, List.filter]

/-- C7 witness: the mode property applied to concrete `[en, en, de]` votes. -/
theorem C7_majority_language_mode_witness :
    ([⟨"a", some "en"⟩, ⟨"b", some "en"⟩, ⟨"c", some "de"⟩] : List ChunkResult) ≠ [] ∧
    ∃ v, most_common (([⟨"a", some "en"⟩, ⟨"b", some "en"⟩, ⟨"c", some "de"⟩] :
          List ChunkResult).map (fun r => r.language)) = some v ∧
      (whisper_merge [⟨"a", some "en"⟩, ⟨"b", some "en"⟩, ⟨"c", some "de"⟩]).language = v ∧
      v ∈ (([⟨"a", some "en"⟩, ⟨"b", some "en"⟩, ⟨"c", some "de"⟩] :
          List ChunkResult).map (fun r => r.language)) ∧
      (∀ w ∈ (([⟨"a", some "en"⟩, ⟨"b", some "en"⟩, ⟨"c", some "de"⟩] :
          List ChunkResult).map (fun r => r.language)),
        vote_count w (([⟨"a", some "en"⟩, ⟨"b", some "en"⟩, ⟨"c", some "de"⟩] :
          List ChunkResult).map (fun r => r.language)) ≤
        vote_count v (([⟨"a", some "en"⟩, ⟨"b", some "en"⟩, ⟨"c", some "de"⟩] :
          List ChunkResult).map (fun r => r.language))) ∧
      (∀ w ∈ (([⟨"a", some "en"⟩, ⟨"b", some "en"⟩, ⟨"c", some "de"⟩] :
          List ChunkResult).map (fun r => r.language)),
        vote_count w (([⟨"a", some "en"⟩, ⟨"b", some "en"⟩, ⟨"c", some "de"⟩] :
          List ChunkResult).map (fun r => r.language)) =
        vote_count v (([⟨"a", some "en"⟩, ⟨"b", some "en"⟩, ⟨"c", some "de"⟩] :
          List ChunkResult).map (fun r => r.language)) →
        first_idx v (([⟨"a", some "en"⟩, ⟨"b", some "en"⟩, ⟨"c", some "de"⟩] :
          List ChunkResult).map (fun r => r.language)) ≤
        first_idx w (([⟨"a", some "en"⟩, ⟨"b", some "en"⟩, ⟨"c", some "de"⟩] :
          List ChunkResult).map (fun r => r.language))) :=
  ⟨by decide,
   C7_majority_language_mode.1
     [⟨"a", some "en"⟩, ⟨"b", some "en"⟩, ⟨"c", some "de"⟩] (by decide)⟩

/-! ## C6: merge follows task order, not completion order -/

lemma run_task_group_foldl_length (f : α → β) (chunks : List α) :
    ∀ (schedule : List (Fin chunks.length)) (init : List (Option β)),
      (schedule.foldl (fun slots i => slots.set i.val (some (f (chunks.get i))))
        init).length = init.length := by
  intro schedule
  induction schedule with
  | nil => intro init; rfl
  | cons i rest ih =>
    intro init
    rw [List.foldl_cons, ih]
    simp

lemma run_task_group_foldl_getElem (f : α → β) (chunks : List α) :
    ∀ (schedule : List (Fin chunks.length)) (init : List (Option β)),
      init.length = chunks.length → ∀ j : Fin chunks.length,
      (schedule.foldl (fun slots i => slots.set i.val (some (f (chunks.get i))))
          init)[j.val]? =
        if j ∈ schedule then some (some (f (chunks.get j))) else init[j.val]? := by
  intro schedule
  induction schedule with
  | nil =>
    intro init hlen j
    simp
  | cons i rest ih =>
    intro init hlen j
    rw [List.foldl_cons, ih (init.set i.val (some (f (chunks.get i)))) (by simp [hlen]) j]
    by_cases hjr : j ∈ rest
    · simp [hjr]
    · simp only [hjr, if_false]
      rw [List.getElem?_set]
      by_cases hij : i.val = j.val
      · have hijf : i = j := Fin.ext hij
        subst hijf
        have hi : i.val < init.length := by
          rw [hlen]
          exact i.isLt
        simp [hi]
      · have hijf : j ≠ i := fun h => hij (congrArg Fin.val h).symm
        simp [hij, hijf, hjr]

lemma run_task_group_eq (f : α → β) (chunks : List α)
    (schedule : List (Fin chunks.length))
    (hcov : ∀ j : Fin chunks.length, j ∈ schedule) :
    run_task_group f chunks schedule = chunks.map (fun c => some (f c)) := by
  apply List.ext_getElem?
  intro m
  by_cases hm : m < chunks.length
  · have hj := run_task_group_foldl_getElem f chunks schedule
      (List.replicate chunks.length none) (by simp) ⟨m, hm⟩
    rw [run_task_group] at *
    rw [hj]
    simp only [hcov ⟨m, hm⟩, if_true]
    rw [List.getElem?_map, List.getElem?_eq_getElem hm]
    simp [List.get_eq_getElem]
  · have h1 : (run_task_group f chunks schedule).length = chunks.length := by
      rw [run_task_group, run_task_group_foldl_length]
      simp
    rw [List.getElem?_eq_none (by omega), List.getElem?_eq_none (by simpa using by omega)]

lemma collect_map_some : ∀ l : List β, collect (l.map (fun b => some b)) = some l := by
  intro l
  induction l with
  | nil => rfl
  | cons b rest ih => simp [collect, ih]

/-- C6: for every nonempty chunk list transcribed concurrently under any
completion schedule that finishes every task, the fan-in result is the
per-chunk results in original chunk order, and the merged transcript text
is the per-chunk texts concatenated with the `"\n"` separator in that
original order — independent of the completion order. -/
theorem C6_merge_in_task_order (f : α → ChunkResult) (chunks : List α)
    (hne : chunks ≠ []) (schedule : List (Fin chunks.length))
    (hcov : ∀ j : Fin chunks.length, j ∈ schedule) :
    get_whisper_transcription f chunks schedule = some (whisper_merge (chunks.map f)) ∧
    (whisper_merge (chunks.map f)).text =
      String.intercalate "\n" (chunks.map (fun c => (f c).text)) := by
  constructor
  · rw [get_whisper_transcription, run_task_group_eq f chunks schedule hcov]
    have hms : chunks.map (fun c => some (f c)) = (chunks.map f).map (fun b => some b) := by
      simp [List.map_map]
    rw [hms, collect_map_some]
    rfl
  · simp [whisper_merge, List.map_map, Function.comp_def]

/-- C6 witness: three chunks completed in the scrambled order 2, 0, 1 still
merge in chunk order. -/
theorem C6_merge_in_task_order_witness :
    (["a", "b", "c"] ≠ []) ∧
    (∀ j : Fin (["a", "b", "c"].length),
      j ∈ ([⟨2, by decide⟩, ⟨0, by decide⟩, ⟨1, by decide⟩] :
        List (Fin (["a", "b", "c"].length)))) ∧
    (get_whisper_transcription (fun s => ⟨s, some "en"⟩) ["a", "b", "c"]
        [⟨2, by decide⟩, ⟨0, by decide⟩, ⟨1, by decide⟩] =
      some (whisper_merge (["a", "b", "c"].map (fun s => (⟨s, some "en"⟩ : ChunkResult)))) ∧
    (whisper_merge (["a", "b", "c"].map (fun s => (⟨s, some "en"⟩ : ChunkResult)))).text =
      String.intercalate "\n" (["a", "b", "c"].map
        (fun s => ((⟨s, some "en"⟩ : ChunkResult)).text))) :=
  ⟨by decide, by decide,
   C6_merge_in_task_order (fun s => ⟨s, some "en"⟩) ["a", "b", "c"] (by decide)
     [⟨2, by decide⟩, ⟨0, by decide⟩, ⟨1, by decide⟩] (by decide)⟩

/-! ## C5: chunk-size bound of the silence-based plan -/

/-- Budget invariant of a boundary chain: every span between consecutive
boundaries, starting from `current_start`, has estimated size
(`Δt * bitrate / 1024 / 8`, in MB) at most `max_size_mb`. -/
def within_budget (bitrate max_size_mb : ℚ) : ℚ → List ℚ → Prop
  | _, [] => True
  | current_start, s :: rest =>
    (s - current_start) * bitrate / 1024 / 8 ≤ max_size_mb ∧
      within_budget bitrate max_size_mb s rest

lemma silence_loop_within_budget (bitrate max_size_mb : ℚ) :
    ∀ (pairs : List (ℚ × ℚ)) (current_start : ℚ) (acc out : List ℚ),
      silence_loop bitrate max_size_mb pairs current_start acc = some out →
      ∃ t, out = acc ++ t ∧ within_budget bitrate max_size_mb current_start t := by
  intro pairs
  induction pairs with
  | nil =>
    intro current_start acc out h
    rw [silence_loop] at h
    exact ⟨[], by simpa using h.symm, trivial⟩
  | cons p rest ih =>
    intro current_start acc out h
    rw [silence_loop] at h
    by_cases h1 : max_size_mb < (p.1 - current_start) * bitrate / 1024 / 8
    · rw [if_pos h1] at h
      exact absurd h (by simp)
    · rw [if_neg h1] at h
      by_cases h2 : max_size_mb < (p.2 - current_start) * bitrate / 1024 / 8
      · rw [if_pos h2] at h
        obtain ⟨t, ht, hw⟩ := ih p.1 (acc ++ [p.1]) out h
        refine ⟨p.1 :: t, by simpa [List.append_assoc] using ht, ?_, hw⟩
        exact le_of_not_lt h1
      · rw [if_neg h2] at h
        exact ih current_start acc out h

lemma within_budget_get_sizes (bitrate max_size_mb : ℚ) :
    ∀ (segments : List ℚ) (start : ℚ),
      within_budget bitrate max_size_mb start segments →
      ∀ size ∈ (deltas start segments).map (fun len => len * bitrate / 8),
        size ≤ max_size_mb * 1024 := by
  intro segments
  induction segments with
  | nil =>
    intro start hwb size hsize
    simp [deltas] at hsize
  | cons s rest ih =>
    intro start hwb size hsize
    obtain ⟨h1, h2⟩ := hwb
    rw [deltas] at hsize
    simp only [List.map_cons, List.mem_cons] at hsize
    rcases hsize with hhd | htl
    · subst hhd
      have hrw : (s - start) * bitrate / 8 = (s - start) * bitrate / 1024 / 8 * 1024 := by
        ring
      rw [hrw]
      exact mul_le_mul_of_nonneg_right h1 (by norm_num)
    · exact ih s h2 _ htl

/-- C5 as amended: (a) every span measured by `get_sizes` — the spans between
consecutive boundaries of the walked silence plan, starting at 0 and
excluding the final tail span from the last boundary to the end of the
stream — is within budget by construction of the walk, so the post-hoc
check holds of every walked plan; and (b) `split_audio` either keeps a plan
all of whose measured spans are within budget or falls back to the even
duration-based split.  (The produced chunks also include the unmeasured
tail chunk, which lies outside this guarantee — see the counterexample.) -/
theorem C5_measured_spans_within_budget (a : Analysis) (st_size : Nat)
    (max_size_mb : ℚ) :
    (∀ (pairs : List (ℚ × ℚ)) (out : List ℚ),
      silence_loop a.bitrate max_size_mb pairs 0 [] = some out →
      ∀ size ∈ get_sizes out a.bitrate, size ≤ max_size_mb * 1024) ∧
    ((∀ size ∈ get_sizes (split_audio_segments a st_size max_size_mb) a.bitrate,
        size ≤ max_size_mb * 1024) ∨
      split_audio_segments a st_size max_size_mb =
        get_even_splits st_size a.total_seconds max_size_mb) := by
  constructor
  · intro pairs out h size hsize
    obtain ⟨t, ht, hw⟩ := silence_loop_within_budget a.bitrate max_size_mb pairs 0 [] out h
    rw [List.nil_append] at ht
    subst ht
    exact within_budget_get_sizes a.bitrate max_size_mb out 0 hw size hsize
  · rw [split_audio_segments]
    by_cases hsil : a.silent_segments.isEmpty
    · simp [hsil]
    · simp only [hsil, if_false, Bool.false_eq_true]
      set splits := a.silent_segments.map (fun p => (p.1 + p.2) / 2) with hsplits
      set walked := (match silence_loop a.bitrate max_size_mb (splits.zip splits.tail) 0 [] with
        | none => get_even_splits st_size a.total_seconds max_size_mb
        | some s => s) with hwalked
      by_cases hany : (get_sizes walked a.bitrate).any (fun size => max_size_mb * 1024 < size)
      · simp [hany]
      · simp only [hany, if_false, Bool.false_eq_true]
        by_cases hempty : walked.isEmpty
        · simp [hempty]
        · simp only [hempty, if_false, Bool.false_eq_true]
          left
          intro size hsize
          have := List.any_eq_false.mp (Bool.not_eq_true _ ▸ hany) size hsize
          simpa using le_of_not_lt (by simpa using this)

/-- C5 witness: a concrete walked plan whose measured span is within budget. -/
theorem C5_measured_spans_within_budget_witness :
    silence_loop (8192 : ℚ) 1 [((1 : ℚ)/2, (8 : ℚ)/5)] 0 [] = some [(1 : ℚ)/2] ∧
    ∀ size ∈ get_sizes [(1 : ℚ)/2] (8192 : ℚ), size ≤ 1 * 1024 := by
  have h : silence_loop (8192 : ℚ) 1 [((1 : ℚ)/2, (8 : ℚ)/5)] 0 [] = some [(1 : ℚ)/2] := by
    norm_num [silence_loop]
  exact ⟨h,
    (C5_measured_spans_within_budget ⟨8192, 100, [(0, 1), (6/5, 2)]⟩ 2097152 1).1
      [((1 : ℚ)/2, (8 : ℚ)/5)] [(1 : ℚ)/2] h⟩

/-- C5 counterexample: bitrate 8192 kbit/s, duration 100 s, budget 1 MB and
silences around 0.5 s and 1.6 s.  The walk keeps boundary `[0.5]`, the
post-hoc check passes (the measured span `[0, 0.5]` is 512 kB ≤ 1024 kB),
so the silence plan is kept — yet the exported chunks are `[0, 0.5]` and
the tail `[0.5, 100]`, whose estimated size `99.5 * 8192/8 kB ≈ 99.5 MB`
far exceeds the 1 MB budget: a produced chunk violates the bound and no
fallback is triggered. -/
theorem C5_counterexample_tail_chunk_over_budget :
    split_audio_segments ⟨8192, 100, [(0, 1), (6/5, 2)]⟩ 2097152 1 = [(1 : ℚ)/2] ∧
    (chunk_deltas (split_audio_segments ⟨8192, 100, [(0, 1), (6/5, 2)]⟩ 2097152 1)
        100).any (fun dt => 1 < dt * (8192 : ℚ) / 1024 / 8) = true := by
  have hp : split_audio_segments ⟨8192, 100, [(0, 1), (6/5, 2)]⟩ 2097152 1 = [(1 : ℚ)/2] := by
    norm_num [split_audio_segments, silence_loop, get_sizes, deltas]
  refine ⟨hp, ?_⟩
  rw [hp]
  norm_num [chunk_deltas, deltas]

end SummareeBot
